import Mathlib

/-!
Shallow embedding of `mmengine/fileio/backends/aws_backend.py` (class
`AWSBackend`).  Paths and object keys are modelled as `List Char`; the
remote object store is modelled by the data it hands back (a set of
buckets/objects for the head probes, and the sequence of key pages the
paginated listing call returns).  Each Python method used by the claims
is translated into an executable Lean function below, and the theorems
at the end of the file settle the claims against those functions.
-/

/-- Strings of the Python source, modelled as lists of characters. -/
abbrev Str := List Char

/-- Convert a Lean string literal to the `Str` model. -/
def toL (s : String) : Str := s.toList

/-- Auxiliary scanner for `_format_path`: the Boolean records whether the
previous character was a backslash, so that a run of backslashes is
collapsed to a single forward slash. -/
def formatAux : Bool → Str → Str
  | _, [] => []
  | prevBS, c :: rest =>
    if c = '\\' then
      if prevBS then formatAux true rest else '/' :: formatAux true rest
    else c :: formatAux false rest

/-- `_format_path`: `re.sub(r'\\+', '/', filepath)` — every maximal run of
backslashes becomes one forward slash. -/
def format_path (s : Str) : Str := formatAux false s

/-- Python `path.split(c, maxsplit=1)`: the part before the first
occurrence of `c`, and `some` remainder when `c` occurs. -/
def splitFirst (c : Char) : Str → Str × Option Str
  | [] => ([], none)
  | x :: xs =>
    if x = c then ([], some xs)
    else ((splitFirst c xs).1.cons x, (splitFirst c xs).2)

/-- `_parse_path` (with `path_mapping = None`): normalize separators, match
the regex `s3://(.+)` with `re.match` (the capture is the maximal run of
non-newline characters after the literal prefix `s3://` and must be
non-empty), then split the capture on the first `/` into bucket and
object name.  A failed match is the `ValueError` branch, modelled as
`none`. -/
def parse_path (fp : Str) : Option (Str × Str) :=
  let f := format_path fp
  if f.take 5 = toL "s3://" then
    let cap := (f.drop 5).takeWhile (fun c => c ≠ '\n')
    if cap.isEmpty then none
    else
      match splitFirst '/' cap with
      | (b, none) => some (b, [])
      | (b, some rest) => some (b, rest)
  else none

/-- Errors signalled by the backend's probe / staging paths.  `invalidPath`
is the `ValueError` of `_parse_path`; `bucketNotFound` / `objectNotFound`
are the `ClientError`s re-raised by `_check_bucket` / `_check_object`;
`notAFile` is the failed `assert self.isfile(...)` of `get_local_path`;
`blockError` / `blockCancel` propagate what happened inside the scoped
`with` block. -/
inductive S3Error where
  | invalidPath
  | bucketNotFound
  | objectNotFound
  | notAFile
  | blockError
  | blockCancel
deriving DecidableEq, Repr

instance {ε α : Type} [DecidableEq ε] [DecidableEq α] : DecidableEq (Except ε α)
  | .error a, .error b =>
    if h : a = b then .isTrue (by rw [h]) else .isFalse (by simp [h])
  | .error _, .ok _ => .isFalse (by simp)
  | .ok _, .error _ => .isFalse (by simp)
  | .ok a, .ok b =>
    if h : a = b then .isTrue (by rw [h]) else .isFalse (by simp [h])

/-- The remote store as seen by the head probes: which buckets exist and
which `(bucket, key)` objects exist. -/
structure S3State where
  buckets : List Str
  objects : List (Str × Str)

/-- `_check_bucket`: `head_bucket` succeeds (returning `True`) when the
bucket exists, otherwise the `ClientError` is caught and re-raised. -/
def check_bucket (st : S3State) (b : Str) : Except S3Error Bool :=
  if b ∈ st.buckets then .ok true else .error .bucketNotFound

/-- `_check_object`: `head_object` succeeds (returning `True`) when the
object exists, otherwise the `ClientError` is caught and re-raised. -/
def check_object (st : S3State) (b k : Str) : Except S3Error Bool :=
  if (b, k) ∈ st.objects then .ok true else .error .objectNotFound

/-- `exists`: parse the path and return `self._check_object(bucket,
obj_name)` unchanged — any error from the probe propagates. -/
def exists_obj (st : S3State) (fp : Str) : Except S3Error Bool :=
  match parse_path fp with
  | none => .error .invalidPath
  | some (b, k) => check_object st b k

/-- `isfile`: check the bucket (its error propagates), then decide purely
on the shape of the object name: non-empty and not ending in `/`. -/
def isfile (st : S3State) (fp : Str) : Except S3Error Bool :=
  match parse_path fp with
  | none => .error .invalidPath
  | some (b, k) =>
    match check_bucket st b with
    | .error e => .error e
    | .ok flag => .ok (flag && !(List.isSuffixOf (toL "/") k) && !k.isEmpty)

/-- What the caller's block does between the `yield` of `get_local_path`
and the scope's exit: return normally, raise an exception, or be
cancelled (the generator is closed).  In every case CPython runs the
`finally` clause of the context manager. -/
inductive BlockOutcome where
  | normal
  | raised
  | cancelled
deriving DecidableEq, Repr

/-- Observable outcome of one `get_local_path` call: the propagated
result, whether the temporary file was ever created, whether the scope
was entered (the path was yielded to the block), and whether the
temporary file still exists after the call. -/
structure StageOut where
  res : Except S3Error Unit
  tempCreated : Bool
  entered : Bool
  tempLive : Bool
deriving DecidableEq, Repr

/-- `get_local_path`: `assert self.isfile(filepath)` (its parse / bucket
errors propagate, a directory-shaped key fails the assertion), then a
temporary file is created, `self.get(filepath)` is written into it (a
missing object raises here, inside the `try`), the path is yielded, and
the `finally` clause removes the temporary file on every exit path. -/
def get_local_path (st : S3State) (fp : Str) (blk : BlockOutcome) : StageOut :=
  match parse_path fp with
  | none => ⟨.error .invalidPath, false, false, false⟩
  | some (b, k) =>
    if b ∈ st.buckets then
      if List.isSuffixOf (toL "/") k ∨ k.isEmpty then
        ⟨.error .notAFile, false, false, false⟩
      else
        if (b, k) ∈ st.objects then
          match blk with
          | .normal => ⟨.ok (), true, true, false⟩
          | .raised => ⟨.error .blockError, true, true, false⟩
          | .cancelled => ⟨.error .blockCancel, true, true, false⟩
        else ⟨.error .objectNotFound, true, false, false⟩
    else ⟨.error .bucketNotFound, false, false, false⟩

example : parse_path (toL "s3://bucket/a/b") = some (toL "bucket", toL "a/b") := by decide
example : parse_path (toL "s3://bucket") = some (toL "bucket", []) := by decide
example : parse_path (toL "not-s3-path") = none := by decide
example : parse_path (toL "s3:///x") = some ([], toL "x") := by decide
example : exists_obj ⟨[toL "bucket"], []⟩ (toL "s3://bucket/missing")
    = .error .objectNotFound := by decide
example : isfile ⟨[toL "b"], []⟩ (toL "s3://b/nofile.txt") = .ok true := by decide
example : isfile ⟨[toL "b"], []⟩ (toL "s3://b/d/") = .ok false := by decide
example : get_local_path ⟨[toL "b"], [(toL "b", toL "o")]⟩ (toL "s3://b/o") .normal
    = ⟨.ok (), true, true, false⟩ := by decide
example : get_local_path ⟨[], []⟩ (toL "s3://b/d/") .normal
    = ⟨.error .bucketNotFound, false, false, false⟩ := by decide
example : get_local_path ⟨[toL "b"], []⟩ (toL "s3://b/d/") .normal
    = ⟨.error .notAFile, false, false, false⟩ := by decide

/-! ### The listing algorithm (`list_dir_or_file` and the inner generator) -/

/-- The `suffix` argument of `list_dir_or_file` once it has passed the
`isinstance(suffix, (str, tuple))` guard: a single string or a tuple of
strings. -/
inductive SuffixV where
  | single (s : Str)
  | multi (ss : List Str)
deriving DecidableEq, Repr

/-- Python `path.endswith(suffix)` for `None`, a string, or a tuple of
strings (`endswith` of a tuple is true when any member is a suffix). -/
def suffixOk : Option SuffixV → Str → Bool
  | none, _ => true
  | some (.single s), p => List.isSuffixOf s p
  | some (.multi ss), p => ss.any fun s => List.isSuffixOf s p

/-- One entry produced by the generator: a directory inferred from a key
(stored without its trailing slash, which `render` restores) or a file
path yielded verbatim. -/
inductive Entry where
  | dir (p : Str)
  | file (p : Str)
deriving DecidableEq, Repr

/-- The string actually yielded for an entry: directories get the
trailing `/` appended at the `yield`, files are yielded as-is. -/
def Entry.render : Entry → Str
  | .dir p => p ++ ['/']
  | .file p => p

/-- Fuel-indexed scanner behind `str.replace(pat, '')`: delete each
leftmost occurrence of `pat` and resume after it (Python's
non-overlapping left-to-right semantics).  The fuel, instantiated with
the string's length by `stripOcc`, only makes the recursion structural:
every step consumes at least one character. -/
def stripOccFuel (pat : Str) : Nat → Str → Str
  | _, [] => []
  | 0, s => s
  | fuel + 1, c :: rest =>
    if pat ≠ [] ∧ List.isPrefixOf pat (c :: rest) then
      stripOccFuel pat fuel ((c :: rest).drop pat.length)
    else c :: stripOccFuel pat fuel rest

/-- Python `s.replace(pat, '')`: delete every occurrence of `pat` from
`s`, scanning left to right without overlap. -/
def stripOcc (pat s : Str) : Str := stripOccFuel pat s.length s

/-- Lines 406–409 of the source: `[item for item in
path.replace(root, '').split('/') if item]` — the segment list used for
the level computation. -/
def sparsePath (root path : Str) : List Str :=
  (List.splitOn '/' (stripOcc root path)).filter fun seg => !seg.isEmpty

/-- The traversal configuration shared by every key of one listing call. -/
structure ListCfg where
  list_dir : Bool
  list_file : Bool
  suffix : Option SuffixV
  recursive : Bool
  root : Str

/-- The `for lvl in range(level - 1)` loop of lines 425–429: emit each
strict-prefix directory not yet recorded, recording it afterwards in all
cases.  The loop is modelled by structural recursion over the list of
loop indices. -/
def emitDirs (sparse : List Str) : List Nat → List Str → List Str × List Entry
  | [], dup => (dup, [])
  | lvl :: rest, dup =>
    let rel := List.intercalate ['/'] (sparse.take (lvl + 1))
    if rel ∈ dup then emitDirs sparse rest dup
    else
      ((emitDirs sparse rest (rel :: dup)).1,
        Entry.dir rel :: (emitDirs sparse rest (rel :: dup)).2)

/-- Processing of a single returned key (lines 401–432): strip the root
prefix, compute the segment list and level, skip level-0 keys, handle the
non-recursive deep-key case with the first-segment directory, otherwise
emit implied directories and possibly the file itself. -/
def processKey (cfg : ListCfg) (dup : List Str) (key : Str) : List Str × List Entry :=
  let path := key.drop cfg.root.length
  let sparse := sparsePath cfg.root path
  let level := sparse.length
  if level = 0 then (dup, [])
  else if 1 < level ∧ cfg.recursive = false then
    if cfg.list_dir = true ∧ sparse.headI ∉ dup then
      (sparse.headI :: dup, [Entry.dir sparse.headI])
    else (dup, [])
  else
    let st := if cfg.list_dir = true then emitDirs sparse (List.range (level - 1)) dup
      else (dup, [])
    if cfg.list_file = true ∧ suffixOk cfg.suffix path = true then
      (st.1, st.2 ++ [Entry.file path])
    else (st.1, st.2)

/-- The keys of one response page, processed in order with the
deduplication state threaded through. -/
def processKeys (cfg : ListCfg) : List Str → List Str → List Str × List Entry
  | dup, [] => (dup, [])
  | dup, k :: ks =>
    ((processKeys cfg (processKey cfg dup k).1 ks).1,
      (processKey cfg dup k).2 ++ (processKeys cfg (processKey cfg dup k).1 ks).2)

/-- The paginated traversal: pages arrive in order (inside one paginate
call and across the continuation-token recursion) and share the
`duplicate_paths` state, which lives in the enclosing scope. -/
def runPages (cfg : ListCfg) : List Str → List (List Str) → List Str × List Entry
  | dup, [] => (dup, [])
  | dup, pg :: rest =>
    ((runPages cfg (processKeys cfg dup pg).1 rest).1,
      (processKeys cfg dup pg).2 ++ (runPages cfg (processKeys cfg dup pg).1 rest).2)

/-- The listing errors: the `TypeError` of the `list_dir`/`suffix` guard
and the `ValueError` of `_parse_path`. -/
inductive LDFError where
  | suffixWithDir
  | invalidPath
deriving DecidableEq, Repr

/-- Line 364–365: a non-empty parsed directory key gets a trailing slash
appended before it becomes the traversal root. -/
def mkRoot (obj : Str) : Str :=
  if obj ≠ [] ∧ ¬List.isSuffixOf (toL "/") obj then obj ++ ['/'] else obj

/-- `list_dir_or_file`: guard `list_dir`/`suffix`, parse the path, build
the root prefix, and run the generator over the pages the store returns
for that prefix.  `pages` is the sequence of `Contents` lists delivered
by the paginated list call. -/
def list_dir_or_file (pages : List (List Str)) (dirPath : Str) (ld lf : Bool)
    (sfx : Option SuffixV) (rc : Bool) : Except LDFError (List Entry) :=
  if ld = true ∧ sfx.isSome = true then .error .suffixWithDir
  else
    match parse_path dirPath with
    | none => .error .invalidPath
    | some (_b, obj) =>
      .ok (runPages ⟨ld, lf, sfx, rc, mkRoot obj⟩ [] pages).2

/-- The strings a caller receives from a successful listing call. -/
def renderedOf (r : Except LDFError (List Entry)) : List Str :=
  match r with
  | .ok out => out.map Entry.render
  | .error _ => []

/-- The paths of the entries yielded as inferred directories. -/
def dirStems (out : List Entry) : List Str :=
  out.filterMap fun e => match e with | .dir p => some p | .file _ => none

/-- The strings yielded as inferred directory entries (with the trailing
slash they are rendered with). -/
def dirRendered (out : List Entry) : List Str :=
  out.filterMap fun e => match e with | .dir p => some (p ++ ['/']) | .file _ => none

example : renderedOf (list_dir_or_file [[toL "d/x.txt", toL "d/y/z.txt"]]
    (toL "s3://bucket/d") true true none false) = [toL "x.txt", toL "y/"] := by decide
example : renderedOf (list_dir_or_file [[toL "d/y/z.txt", toL "d/x.txt"]]
    (toL "s3://bucket/d") true true none false) = [toL "y/", toL "x.txt"] := by decide
example : renderedOf (list_dir_or_file [[toL "d/x.txt", toL "d/y/z.txt"]]
    (toL "s3://bucket/d") true true none true) = [toL "x.txt", toL "y/", toL "y/z.txt"] := by decide
example : renderedOf (list_dir_or_file [[toL "d/y/", toL "d/y/z.txt"]]
    (toL "s3://bucket/d") true true none true) = [toL "y/", toL "y/", toL "y/z.txt"] := by decide
example : renderedOf (list_dir_or_file [[toL "d/a.txt", toL "d/a.csv"]]
    (toL "s3://bucket/d") false true (some (.single (toL ".txt"))) false) = [toL "a.txt"] := by decide
example : sparsePath (toL "a/") ((toL "a/a/b").drop 2) = [toL "b"] := by decide

/-! ### Auxiliary lemmas -/

theorem dirStems_nil : dirStems [] = [] := rfl

theorem dirStems_cons_dir (p : Str) (l : List Entry) :
    dirStems (Entry.dir p :: l) = p :: dirStems l := rfl

theorem dirStems_cons_file (p : Str) (l : List Entry) :
    dirStems (Entry.file p :: l) = dirStems l := rfl

theorem dirStems_append (a b : List Entry) :
    dirStems (a ++ b) = dirStems a ++ dirStems b :=
  List.filterMap_append a b _

theorem dirRendered_cons_dir (p : Str) (l : List Entry) :
    dirRendered (Entry.dir p :: l) = (p ++ ['/']) :: dirRendered l := rfl

theorem dirRendered_cons_file (p : Str) (l : List Entry) :
    dirRendered (Entry.file p :: l) = dirRendered l := rfl

theorem dirRendered_eq_map (out : List Entry) :
    dirRendered out = (dirStems out).map (fun p => p ++ ['/']) := by
  induction out with
  | nil => rfl
  | cons e rest ih =>
    cases e <;>
      simp [dirRendered_cons_dir, dirRendered_cons_file, dirStems_cons_dir,
        dirStems_cons_file, ih]

theorem append_slash_injective : Function.Injective (fun p : Str => p ++ ['/']) := by
  intro a b h
  have h' := congrArg List.dropLast h
  simpa using h'

/-- Invariants of the directory-emission loop: the dedup set only grows,
every emitted stem was fresh and is recorded afterwards, and the emitted
stems are pairwise distinct. -/
theorem emitDirs_spec (sparse : List Str) (lvls : List Nat) :
    ∀ dup : List Str,
      (∀ p, p ∈ dup → p ∈ (emitDirs sparse lvls dup).1) ∧
      (∀ p, p ∈ dirStems (emitDirs sparse lvls dup).2 →
        p ∉ dup ∧ p ∈ (emitDirs sparse lvls dup).1) ∧
      (dirStems (emitDirs sparse lvls dup).2).Nodup := by
  induction lvls with
  | nil =>
    intro dup
    exact ⟨fun p hp => hp, by simp [emitDirs, dirStems], by simp [emitDirs, dirStems]⟩
  | cons lvl rest ih =>
    intro dup
    have hcons := ih (List.intercalate ['/'] (sparse.take (lvl + 1)) :: dup)
    have hsame := ih dup
    simp only [emitDirs]
    split
    · exact hsame
    · next hrel =>
      refine ⟨?_, ?_, ?_⟩
      · intro p hp
        exact hcons.1 p (List.mem_cons_of_mem _ hp)
      · intro p hp
        rw [dirStems_cons_dir] at hp
        rcases List.mem_cons.mp hp with rfl | hp2
        · exact ⟨hrel, hcons.1 _ (List.mem_cons_self _ _)⟩
        · obtain ⟨hnot, hin⟩ := hcons.2.1 p hp2
          exact ⟨fun hc => hnot (List.mem_cons_of_mem _ hc), hin⟩
      · rw [dirStems_cons_dir]
        refine List.nodup_cons.mpr ⟨fun hc => ?_, hcons.2.2⟩
        exact (hcons.2.1 _ hc).1 (List.mem_cons_self _ _)

/-- The same three invariants for the processing of a single key. -/
theorem processKey_spec (cfg : ListCfg) (dup : List Str) (k : Str) :
    (∀ p, p ∈ dup → p ∈ (processKey cfg dup k).1) ∧
    (∀ p, p ∈ dirStems (processKey cfg dup k).2 →
      p ∉ dup ∧ p ∈ (processKey cfg dup k).1) ∧
    (dirStems (processKey cfg dup k).2).Nodup := by
  simp only [processKey]
  split
  · exact ⟨fun p hp => hp, by simp [dirStems], by simp [dirStems]⟩
  split
  · -- deep key, non-recursive traversal
    split
    · next hguard =>
      refine ⟨fun p hp => List.mem_cons_of_mem _ hp, ?_, by simp [dirStems]⟩
      intro p hp
      rw [dirStems_cons_dir, dirStems_nil] at hp
      rcases List.mem_cons.mp hp with rfl | hp2
      · exact ⟨hguard.2, List.mem_cons_self _ _⟩
      · cases hp2
    · exact ⟨fun p hp => hp, by simp [dirStems], by simp [dirStems]⟩
  · -- direct child or recursive traversal
    have hemit :
        (∀ p, p ∈ dup →
          p ∈ (if cfg.list_dir = true then
            emitDirs (sparsePath cfg.root (k.drop cfg.root.length))
              (List.range ((sparsePath cfg.root (k.drop cfg.root.length)).length - 1)) dup
          else (dup, [])).1) ∧
        (∀ p, p ∈ dirStems (if cfg.list_dir = true then
            emitDirs (sparsePath cfg.root (k.drop cfg.root.length))
              (List.range ((sparsePath cfg.root (k.drop cfg.root.length)).length - 1)) dup
          else (dup, [])).2 →
          p ∉ dup ∧ p ∈ (if cfg.list_dir = true then
            emitDirs (sparsePath cfg.root (k.drop cfg.root.length))
              (List.range ((sparsePath cfg.root (k.drop cfg.root.length)).length - 1)) dup
          else (dup, [])).1) ∧
        (dirStems (if cfg.list_dir = true then
            emitDirs (sparsePath cfg.root (k.drop cfg.root.length))
              (List.range ((sparsePath cfg.root (k.drop cfg.root.length)).length - 1)) dup
          else (dup, [])).2).Nodup := by
      split
      · exact emitDirs_spec _ _ dup
      · exact ⟨fun p hp => hp, by simp [dirStems], by simp [dirStems]⟩
    split
    · refine ⟨hemit.1, ?_, ?_⟩
      · intro p hp
        rw [dirStems_append] at hp
        rcases List.mem_append.mp hp with h | h
        · exact hemit.2.1 p h
        · rw [dirStems_cons_file, dirStems_nil] at h
          cases h
      · rw [dirStems_append, dirStems_cons_file, dirStems_nil, List.append_nil]
        exact hemit.2.2
    · exact hemit

/-- The per-key invariants, lifted to a whole page of keys. -/
theorem processKeys_spec (cfg : ListCfg) (ks : List Str) :
    ∀ dup : List Str,
      (∀ p, p ∈ dup → p ∈ (processKeys cfg dup ks).1) ∧
      (∀ p, p ∈ dirStems (processKeys cfg dup ks).2 →
        p ∉ dup ∧ p ∈ (processKeys cfg dup ks).1) ∧
      (dirStems (processKeys cfg dup ks).2).Nodup := by
  induction ks with
  | nil =>
    intro dup
    exact ⟨fun p hp => hp, by simp [processKeys, dirStems], by simp [processKeys, dirStems]⟩
  | cons k ks ih =>
    intro dup
    obtain ⟨a1, b1, c1⟩ := processKey_spec cfg dup k
    obtain ⟨a2, b2, c2⟩ := ih (processKey cfg dup k).1
    simp only [processKeys]
    refine ⟨?_, ?_, ?_⟩
    · intro p hp
      exact a2 p (a1 p hp)
    · intro p hp
      rw [dirStems_append] at hp
      rcases List.mem_append.mp hp with h | h
      · obtain ⟨hn, hi⟩ := b1 p h
        exact ⟨hn, a2 p hi⟩
      · obtain ⟨hn, hi⟩ := b2 p h
        exact ⟨fun hc => hn (a1 p hc), hi⟩
    · rw [dirStems_append]
      exact List.Nodup.append c1 c2 (fun p hp1 hp2 => (b2 p hp2).1 (b1 p hp1).2)

/-- Processing a concatenation of key lists equals processing them one
after the other with the state threaded through. -/
theorem processKeys_append (cfg : ListCfg) (ks1 : List Str) :
    ∀ (ks2 : List Str) (dup : List Str),
      processKeys cfg dup (ks1 ++ ks2) =
        ((processKeys cfg (processKeys cfg dup ks1).1 ks2).1,
          (processKeys cfg dup ks1).2 ++
            (processKeys cfg (processKeys cfg dup ks1).1 ks2).2) := by
  induction ks1 with
  | nil => intro ks2 dup; simp [processKeys]
  | cons k ks ih =>
    intro ks2 dup
    simp only [List.cons_append, processKeys, List.append_eq]
    rw [ih]
    simp [List.append_assoc]

/-- Page boundaries are invisible: the traversal over any page sequence
equals the traversal over the concatenated key list. -/
theorem runPages_eq_join (cfg : ListCfg) (pages : List (List Str)) :
    ∀ dup : List Str, runPages cfg dup pages = processKeys cfg dup pages.flatten := by
  induction pages with
  | nil => intro dup; simp [runPages, processKeys]
  | cons pg rest ih =>
    intro dup
    simp only [runPages, List.flatten_cons, processKeys_append, ih]

/-- A listing call only depends on the concatenation of the pages the
store returns. -/
theorem ldf_pages_join (pages : List (List Str)) (dirPath : Str) (ld lf : Bool)
    (sfx : Option SuffixV) (rc : Bool) :
    list_dir_or_file pages dirPath ld lf sfx rc =
      list_dir_or_file [pages.flatten] dirPath ld lf sfx rc := by
  simp only [list_dir_or_file]
  split
  · rfl
  · cases hp : parse_path dirPath with
    | none => rfl
    | some bk => simp [runPages_eq_join, runPages, processKeys]

/-- Whether `pat` occurs as a contiguous substring of `s` (an empty `pat`
always occurs). -/
def containsSub (pat : Str) : Str → Bool
  | [] => pat.isEmpty
  | c :: rest => List.isPrefixOf pat (c :: rest) || containsSub pat rest

theorem stripOccFuel_id (pat : Str) :
    ∀ (fuel : Nat) (s : Str), s.length ≤ fuel → containsSub pat s = false →
      stripOccFuel pat fuel s = s := by
  intro fuel
  induction fuel with
  | zero => intro s _ _; cases s <;> rfl
  | succ n ih =>
    intro s hs hc
    cases s with
    | nil => rfl
    | cons c rest =>
      simp only [containsSub, Bool.or_eq_false_iff] at hc
      obtain ⟨hpre, hrest⟩ := hc
      simp only [stripOccFuel]
      rw [if_neg]
      · have hlen : rest.length ≤ n := by
          simpa using Nat.le_of_succ_le_succ (by simpa using hs)
        rw [ih rest hlen hrest]
      · rintro ⟨_, hp⟩
        rw [hp] at hpre
        cases hpre

/-- If the pattern does not occur in the string, `str.replace(pat, '')`
leaves the string unchanged. -/
theorem stripOcc_id (pat s : Str) (h : containsSub pat s = false) :
    stripOcc pat s = s :=
  stripOccFuel_id pat s.length s le_rfl h

theorem splitFirst_not_mem (c : Char) : ∀ s : Str, c ∉ (splitFirst c s).1 := by
  intro s
  induction s with
  | nil => simp [splitFirst]
  | cons x xs ih =>
    simp only [splitFirst]
    split
    · simp
    · next hx =>
      simp only [List.cons]
      intro hc
      rcases List.mem_cons.mp hc with h | h
      · exact hx h.symm
      · exact ih h

/-- The bucket returned by `_parse_path` never contains a slash: it is
the part of the capture before the first `/`. -/
theorem parse_path_bucket_no_slash (fp b k : Str)
    (h : parse_path fp = some (b, k)) : '/' ∉ b := by
  simp only [parse_path] at h
  split at h
  · split at h
    · cases h
    · split at h
      · next b' heq =>
        have hb : (splitFirst '/' ((format_path fp).drop 5|>.takeWhile (fun c => c ≠ '\n'))).1 = b' := by
          rw [heq]
        cases h
        rw [← hb]
        exact splitFirst_not_mem _ _
      · next b' rest heq =>
        have hb : (splitFirst '/' ((format_path fp).drop 5|>.takeWhile (fun c => c ≠ '\n'))).1 = b' := by
          rw [heq]
        cases h
        rw [← hb]
        exact splitFirst_not_mem _ _
  · cases h

/-- The segment computation actually performed by the source for a key:
`path = key[len(root):]` followed by
`[item for item in path.replace(root, '').split('/') if item]`. -/
def codeSegments (root key : Str) : List Str :=
  sparsePath root (key.drop root.length)

/-- Modelled from the spec (§4.6 step 4): compute the relative path by
removing the root prefix from the front of the key, then split on `/`
discarding empty segments, with no other rewriting of the remainder. -/
def specSegments (root key : Str) : List Str :=
  (List.splitOn '/' (key.drop root.length)).filter fun seg => !seg.isEmpty

/-- The temporary file of `get_local_path` is gone after the call on
every control path of the embedding. -/
theorem stageOut_tempLive_false (st : S3State) (fp : Str) (blk : BlockOutcome) :
    (get_local_path st fp blk).tempLive = false := by
  simp only [get_local_path]
  split
  · rfl
  · split
    · split
      · rfl
      · split
        · cases blk <;> rfl
        · rfl
    · rfl

/-- Any successful listing call yields its inferred-directory strings
without repetition. -/
theorem ldf_dir_nodup (pages : List (List Str)) (dirPath : Str) (ld lf : Bool)
    (sfx : Option SuffixV) (rc : Bool) (out : List Entry)
    (h : list_dir_or_file pages dirPath ld lf sfx rc = .ok out) :
    (dirRendered out).Nodup := by
  simp only [list_dir_or_file] at h
  split at h
  · cases h
  · cases hp : parse_path dirPath with
    | none => rw [hp] at h; cases h
    | some bk =>
      rw [hp] at h
      obtain ⟨b, obj⟩ := bk
      have hout : out = (runPages ⟨ld, lf, sfx, rc, mkRoot obj⟩ [] pages).2 := by
        cases h; rfl
      rw [hout, dirRendered_eq_map, runPages_eq_join]
      refine List.Nodup.map append_slash_injective ?_
      exact (processKeys_spec ⟨ld, lf, sfx, rc, mkRoot obj⟩ pages.flatten []).2.2

/-! ### Claim theorems -/

/-- Claim C1: for every bucket containing exactly the keys `d/x.txt` and
`d/y/z.txt` (delivered in either store order and under any pagination),
listing `s3://bucket/d` with `list_dir = true`, `list_file = true`, no
suffix and `recursive = false` yields exactly the strings `y/` and
`x.txt` (in some order), and `y/z.txt` is never yielded as a file. -/
theorem listing_two_keys_nonrecursive (pages : List (List Str))
    (h : pages.flatten = [toL "d/x.txt", toL "d/y/z.txt"] ∨
      pages.flatten = [toL "d/y/z.txt", toL "d/x.txt"]) :
    (renderedOf (list_dir_or_file pages (toL "s3://bucket/d") true true none false)
        = [toL "x.txt", toL "y/"] ∨
      renderedOf (list_dir_or_file pages (toL "s3://bucket/d") true true none false)
        = [toL "y/", toL "x.txt"]) ∧
    toL "y/z.txt" ∉
      renderedOf (list_dir_or_file pages (toL "s3://bucket/d") true true none false) := by
  rw [ldf_pages_join]
  rcases h with h | h <;> rw [h] <;> exact ⟨by decide, by decide⟩

theorem listing_two_keys_nonrecursive_witness :
    (renderedOf (list_dir_or_file [[toL "d/x.txt"], [toL "d/y/z.txt"]]
        (toL "s3://bucket/d") true true none false) = [toL "x.txt", toL "y/"] ∨
      renderedOf (list_dir_or_file [[toL "d/x.txt"], [toL "d/y/z.txt"]]
        (toL "s3://bucket/d") true true none false) = [toL "y/", toL "x.txt"]) ∧
    toL "y/z.txt" ∉
      renderedOf (list_dir_or_file [[toL "d/x.txt"], [toL "d/y/z.txt"]]
        (toL "s3://bucket/d") true true none false) :=
  listing_two_keys_nonrecursive [[toL "d/x.txt"], [toL "d/y/z.txt"]] (Or.inl (by decide))

/-- Claim C2: a listing traversal depends only on the concatenation of
the pages the store returns — splitting the same key sequence across any
page boundaries yields the identical entry sequence (hence the same
final set), and the inferred-directory entries of any successful result
carry no duplicates. -/
theorem pagination_invariance (pages : List (List Str)) (dirPath : Str)
    (ld lf rc : Bool) (sfx : Option SuffixV) :
    list_dir_or_file pages dirPath ld lf sfx rc
        = list_dir_or_file [pages.flatten] dirPath ld lf sfx rc ∧
    ∀ out, list_dir_or_file pages dirPath ld lf sfx rc = .ok out →
      (dirRendered out).Nodup :=
  ⟨ldf_pages_join pages dirPath ld lf sfx rc,
    fun out h => ldf_dir_nodup pages dirPath ld lf sfx rc out h⟩

theorem pagination_invariance_witness :
    list_dir_or_file [[toL "d/x.txt"], [], [toL "d/y/z.txt"]]
        (toL "s3://bucket/d") true true none false
      = list_dir_or_file [[toL "d/x.txt", toL "d/y/z.txt"]]
        (toL "s3://bucket/d") true true none false ∧
    (dirRendered [Entry.file (toL "x.txt"), Entry.dir (toL "y")]).Nodup :=
  ⟨(pagination_invariance [[toL "d/x.txt"], [], [toL "d/y/z.txt"]]
      (toL "s3://bucket/d") true true false none).1,
    (pagination_invariance [[toL "d/x.txt"], [], [toL "d/y/z.txt"]]
      (toL "s3://bucket/d") true true false none).2
      [Entry.file (toL "x.txt"), Entry.dir (toL "y")] (by decide)⟩

/-- Counterexample to claim C3 as stated: with keys `d/y/` (a directory
marker object) and `d/y/z.txt`, listed recursively with both flags on,
the string `y/` — which ends in `/` — is yielded twice: once as a file
entry for the marker key (file yields bypass the dedup set) and once as
an inferred directory. -/
theorem dir_string_twice_marker_key :
    (renderedOf (list_dir_or_file [[toL "d/y/", toL "d/y/z.txt"]]
        (toL "s3://bucket/d") true true none true)).count (toL "y/") = 2 ∧
    List.isSuffixOf (toL "/") (toL "y/") = true := by
  exact ⟨by decide, by decide⟩

/-- Claim C3 as amended: within one traversal no directory path is
yielded twice AS AN INFERRED DIRECTORY ENTRY (the two directory-emission
sites never repeat a path, for any flags, keys and pagination); a stored
key itself ending in `/` may additionally be yielded as a FILE entry
whose string equals a directory path.  The concrete recursive listing of
`d/x.txt` and `d/y/z.txt` yields `x.txt`, `y/`, `y/z.txt` with `y/`
emitted exactly once. -/
theorem dir_entries_emitted_once :
    (∀ (pages : List (List Str)) (dirPath : Str) (ld lf : Bool)
        (sfx : Option SuffixV) (rc : Bool) (out : List Entry),
      list_dir_or_file pages dirPath ld lf sfx rc = .ok out →
        (dirRendered out).Nodup) ∧
    renderedOf (list_dir_or_file [[toL "d/x.txt", toL "d/y/z.txt"]]
        (toL "s3://bucket/d") true true none true)
      = [toL "x.txt", toL "y/", toL "y/z.txt"] :=
  ⟨fun pages dirPath ld lf sfx rc out h =>
      ldf_dir_nodup pages dirPath ld lf sfx rc out h,
    by decide⟩

theorem dir_entries_emitted_once_witness :
    (dirRendered [Entry.file (toL "x.txt"), Entry.dir (toL "y"),
      Entry.file (toL "y/z.txt")]).Nodup :=
  dir_entries_emitted_once.1 [[toL "d/x.txt", toL "d/y/z.txt"]] (toL "s3://bucket/d")
    true true none true
    [Entry.file (toL "x.txt"), Entry.dir (toL "y"), Entry.file (toL "y/z.txt")]
    (by decide)

/-- Counterexample to claim C4 as stated: with root `a/` and key `a/a/b`
the source computes segments `["b"]` (the `replace(root, '')` on the
already-stripped remainder deletes the second occurrence of `a/`), not
the claimed `["a", "b"]` of the plain split. -/
theorem segments_claim_cex :
    codeSegments (toL "a/") (toL "a/a/b") = [toL "b"] ∧
    specSegments (toL "a/") (toL "a/a/b") = [toL "a", toL "b"] ∧
    codeSegments (toL "a/") (toL "a/a/b") ≠ specSegments (toL "a/") (toL "a/a/b") := by
  exact ⟨by decide, by decide, by decide⟩

/-- Claim C4 as amended: the segments are computed by removing the root
prefix once from the front and splitting on `/` discarding empty
segments, PROVIDED the root string does not occur again in the
remainder; when it does reoccur, every occurrence is deleted before the
split. -/
theorem segments_amended (root key : Str)
    (h : containsSub root (key.drop root.length) = false) :
    codeSegments root key = specSegments root key := by
  unfold codeSegments specSegments sparsePath
  rw [stripOcc_id root _ h]

theorem segments_amended_witness :
    containsSub (toL "d/") ((toL "d/x.txt").drop (toL "d/").length) = false ∧
    codeSegments (toL "d/") (toL "d/x.txt") = specSegments (toL "d/") (toL "d/x.txt") :=
  ⟨by decide, segments_amended (toL "d/") (toL "d/x.txt") (by decide)⟩

/-- Counterexample to claim C5 as stated: the regex `s3://(.+)` also
matches `s3:///x`, and the split on the first `/` then returns an EMPTY
bucket instead of failing — the claimed invariant `bucket non-empty` is
violated. -/
theorem parse_empty_bucket : parse_path (toL "s3:///x") = some (toL "", toL "x") := by
  decide

/-- Claim C5 as amended: the three concrete examples hold as stated, and
for every input, parsing either fails or returns `(bucket, key)` where
the bucket contains no `/` — but the bucket may be empty (it is empty
exactly for paths whose character after `s3://` is `/`, such as
`s3:///x`). -/
theorem parse_path_cases :
    parse_path (toL "s3://bucket/a/b") = some (toL "bucket", toL "a/b") ∧
    parse_path (toL "s3://bucket") = some (toL "bucket", toL "") ∧
    parse_path (toL "not-s3-path") = none ∧
    ∀ fp b k, parse_path fp = some (b, k) → '/' ∉ b :=
  ⟨by decide, by decide, by decide, parse_path_bucket_no_slash⟩

theorem parse_path_cases_witness : '/' ∉ toL "bucket" :=
  parse_path_cases.2.2.2 (toL "s3://bucket/a/b") (toL "bucket") (toL "a/b") (by decide)

/-- Claim C6: `list_dir = true` together with a non-null suffix fails
with the configuration error before anything else — for every page
sequence, path and remaining flags, without consulting the store. -/
theorem suffix_with_dir_guard (pages : List (List Str)) (dirPath : Str)
    (lf rc : Bool) (s : SuffixV) :
    list_dir_or_file pages dirPath true lf (some s) rc = .error .suffixWithDir := by
  simp [list_dir_or_file]

/-- Claim C7 (code bug): `exists` promises a Boolean — `False` when the
object is missing — but `_check_object` re-raises the not-found error
and `exists` propagates it: on a store where the object is absent the
call errors instead of returning `.ok false`. -/
theorem exists_propagates_not_found :
    exists_obj ⟨[toL "bucket"], []⟩ (toL "s3://bucket/missing")
      = .error .objectNotFound := by
  decide

/-- Counterexample to claim C8 as stated: staging a directory-shaped path
whose bucket does not exist fails with the bucket-not-found error (raised
by `isfile`'s bucket probe) rather than with the not-a-file error. -/
theorem staging_dir_missing_bucket_cex :
    (get_local_path ⟨[], []⟩ (toL "s3://b/d/") .normal).res = .error .bucketNotFound ∧
    (Except.error S3Error.bucketNotFound : Except S3Error Unit) ≠ .error .notAFile := by
  exact ⟨by decide, by decide⟩

/-- Claim C8 as amended: staging a path whose parsed key ends in `/` or
is empty never creates a temporary file; it fails with the not-a-file
error when the bucket exists, and with the bucket-not-found error
otherwise. -/
theorem staging_dir_amended (st : S3State) (fp : Str) (blk : BlockOutcome) (b k : Str)
    (hp : parse_path fp = some (b, k))
    (hk : List.isSuffixOf (toL "/") k = true ∨ k.isEmpty = true) :
    (get_local_path st fp blk).tempCreated = false ∧
    (b ∈ st.buckets → (get_local_path st fp blk).res = .error .notAFile) ∧
    (b ∉ st.buckets → (get_local_path st fp blk).res = .error .bucketNotFound) := by
  simp only [get_local_path, hp]
  by_cases hb : b ∈ st.buckets
  · rw [if_pos hb, if_pos hk]
    exact ⟨rfl, fun _ => rfl, fun hc => absurd hb hc⟩
  · rw [if_neg hb]
    exact ⟨rfl, fun hc => absurd hc hb, fun _ => rfl⟩

theorem staging_dir_amended_witness :
    (get_local_path ⟨[toL "b"], []⟩ (toL "s3://b/d/") .normal).tempCreated = false ∧
    (toL "b" ∈ ([toL "b"] : List Str) →
      (get_local_path ⟨[toL "b"], []⟩ (toL "s3://b/d/") .normal).res = .error .notAFile) ∧
    (toL "b" ∉ ([toL "b"] : List Str) →
      (get_local_path ⟨[toL "b"], []⟩ (toL "s3://b/d/") .normal).res
        = .error .bucketNotFound) :=
  staging_dir_amended ⟨[toL "b"], []⟩ (toL "s3://b/d/") .normal (toL "b") (toL "d/")
    (by decide) (Or.inl (by decide))

/-- Claim C9: whenever the staging scope was entered (the temporary file
was created and its path yielded), the temporary file no longer exists
after the scope exits — on normal return, on an exception raised inside
the block, and on cancellation alike. -/
theorem staging_cleanup (st : S3State) (fp : Str) (blk : BlockOutcome)
    (h : (get_local_path st fp blk).entered = true) :
    (get_local_path st fp blk).tempLive = false :=
  stageOut_tempLive_false st fp blk

theorem staging_cleanup_witness :
    (get_local_path ⟨[toL "b"], [(toL "b", toL "o")]⟩ (toL "s3://b/o") .raised).tempLive
      = false :=
  staging_cleanup ⟨[toL "b"], [(toL "b", toL "o")]⟩ (toL "s3://b/o") .raised (by decide)

/-- Claim C10: once the bucket probe succeeds, `isfile` decides purely on
the textual shape of the key — true exactly when the key is non-empty
and does not end in `/` — and never issues an object probe, so its
result is the same for every object population of the store. -/
theorem isfile_textual (bks : List Str) (objs objs2 : List (Str × Str))
    (fp b k : Str) (hp : parse_path fp = some (b, k)) (hb : b ∈ bks) :
    isfile ⟨bks, objs⟩ fp = .ok (!(List.isSuffixOf (toL "/") k) && !k.isEmpty) ∧
    isfile ⟨bks, objs⟩ fp = isfile ⟨bks, objs2⟩ fp := by
  constructor
  · simp [isfile, hp, check_bucket, hb]
  · simp [isfile, hp, check_bucket, hb]

theorem isfile_textual_witness :
    isfile ⟨[toL "b"], []⟩ (toL "s3://b/nofile.txt")
      = .ok (!(List.isSuffixOf (toL "/") (toL "nofile.txt"))
          && !(toL "nofile.txt").isEmpty) ∧
    isfile ⟨[toL "b"], []⟩ (toL "s3://b/nofile.txt")
      = isfile ⟨[toL "b"], [(toL "b", toL "other")]⟩ (toL "s3://b/nofile.txt") :=
  isfile_textual [toL "b"] [] [(toL "b", toL "other")] (toL "s3://b/nofile.txt")
    (toL "b") (toL "nofile.txt") (by decide) (by decide)
